import Mathlib

/-!
Verification of the Go-Chatsync connection hub and message-routing engine.

This development is a shallow embedding of `backend/main.go`: Go maps guarded
by locks become association lists, channels with bounded buffers become lists
with a capacity check, and each handler becomes a pure state transformer.
Handlers run to completion one at a time in the source (per-connection
in-order processing, serialized through the shared locks), so each handler is
modelled as an atomic function on the whole server state.
-/

namespace Chatsync

/-! ## Message type constants (backend/main.go lines 18-39) -/

def TypePrivateMessage : String := "private_message"

def TypeGroupMessage : String := "group_message"

def TypeCreateGroup : String := "create_group"

def TypeAddGroupMember : String := "add_group_member"

def TypeRemoveGroupMember : String := "remove_group_member"

def TypeLeaveGroup : String := "leave_group"

def TypeRequestHistory : String := "request_history"

def TypeUpdateLastSeen : String := "update_last_seen"

def TypeUserList : String := "user_list"

def TypeGroupList : String := "group_list"

def TypeSystem : String := "system"

def TypeHistory : String := "history"

def TypeUnreadCount : String := "unread_count"

/-! ## Data model -/

/-- Chat message record (backend/main.go lines 82-88).  The Go struct field
`Type` is rendered as `type` because `Type` is reserved in Lean. -/
structure Message where
  type : String
  From : String
  To : String
  Content : String
  Timestamp : String
deriving DecidableEq, Repr

/-- Chat group record (backend/main.go lines 91-95). -/
structure Group where
  Name : String
  Admin : String
  Members : List String
deriving DecidableEq, Repr

/-- One encoded outbound frame, as placed on a client's `send` channel.
The source marshals these to JSON bytes; the encoding is an opaque
structured-record codec, so frames are modelled as the structured records
themselves. -/
inductive Frame where
  | message (m : Message)
  | userList (users : List (String × String)) (timestamp : String)
  | groupList (groups : List Group) (timestamp : String)
  | history (messages : List Message) (timestamp : String)
deriving DecidableEq, Repr

/-- Connected client (backend/main.go lines 75-79).  The buffered channel
`send chan []byte` of capacity 256 is modelled as the list of frames
currently buffered; the raw websocket connection is not represented. -/
structure Client where
  Username : String
  send : List Frame
deriving DecidableEq, Repr

/-- Capacity of a client's outbound send channel
(`make(chan []byte, 256)`, backend/main.go line 214). -/
def sendQueueCapacity : Nat := 256

/-- A Go map modelled as an association list with (by construction) at most
one entry per key. -/
abbrev AssocMap (β : Type) := List (String × β)

/-- Map update `m[k] = v`: replace the entry for `k`, or append one. -/
def setA {β : Type} : AssocMap β → String → β → AssocMap β
  | [], k, v => [(k, v)]
  | (k', v') :: rest, k, v =>
    if k' == k then (k, v) :: rest else (k', v') :: setA rest k v

/-- Map deletion `delete(m, k)`. -/
def eraseA {β : Type} (l : AssocMap β) (k : String) : AssocMap β :=
  l.filter (fun p => p.1 != k)

/-- The idiom `m[k] = append(m[k], x)` of the message store: append to the
entry's list, creating the entry if absent. -/
def appendA {β : Type} : AssocMap (List β) → String → β → AssocMap (List β)
  | [], k, x => [(k, [x])]
  | (k', v) :: rest, k, x =>
    if k' == k then (k', v ++ [x]) :: rest else (k', v) :: appendA rest k x

/-- The whole shared mutable state of the hub (backend/main.go lines 97-112):
`clients`, `groups`, `privateMessages`, `groupMessages` and
`lastSeenTimestamps`, each a global map guarded by its own lock. -/
structure ServerState where
  clients : AssocMap Client
  groups : AssocMap Group
  privateMessages : AssocMap (List Message)
  groupMessages : AssocMap (List Message)
  lastSeenTimestamps : AssocMap (AssocMap String)
deriving DecidableEq, Repr

/-! ## Small Go library models -/

/-- Model of Go `strings.Split(s, sep)` for a one-character separator,
working on the character list of the string.  Like Go's `strings.Split`, the
result is never empty: splitting the empty string yields `[""]`. -/
def splitGo : List Char → Char → List String
  | [], _ => [""]
  | c :: rest, sep =>
    match splitGo rest sep with
    | [] => [""]
    | h :: t =>
      if c == sep then "" :: h :: t
      else String.mk (c :: h.data) :: t

/-- Model of Go's byte-wise lexicographic order on strings, at the level of
characters (UTF-8 byte order and code-point order agree). -/
def lexLt : List Char → List Char → Bool
  | [], [] => false
  | [], _ :: _ => true
  | _ :: _, [] => false
  | a :: as, b :: bs =>
    if a.toNat < b.toNat then true
    else if b.toNat < a.toNat then false
    else lexLt as bs

/-- Go string comparison `s1 < s2`. -/
def goLess (s1 s2 : String) : Bool := lexLt s1.data s2.data

/-! ## Conversation keys and the message store -/

/-- getConversationKey (backend/main.go lines 114-120): canonical key for the
conversation between two users, smaller handle first. -/
def getConversationKey (user1 user2 : String) : String :=
  if goLess user1 user2 then user1 ++ ":" ++ user2
  else user2 ++ ":" ++ user1

/-- storeMessage (backend/main.go lines 122-140): append a private message
under the canonical conversation key, a group message under the group name. -/
def storeMessage (s : ServerState) (msg : Message) : ServerState :=
  let s1 :=
    if msg.type == TypePrivateMessage then
      { s with privateMessages :=
          appendA s.privateMessages (getConversationKey msg.From msg.To) msg }
    else s
  if msg.type == TypeGroupMessage then
    { s1 with groupMessages := appendA s1.groupMessages msg.To msg }
  else s1

/-- getConversationHistory (backend/main.go lines 142-157): history for a
private conversation, `[]` when absent. -/
def getConversationHistory (s : ServerState) (user1 user2 : String) : List Message :=
  (s.privateMessages.lookup (getConversationKey user1 user2)).getD []

/-- getGroupHistory (backend/main.go lines 159-172): history for a group,
`[]` when absent. -/
def getGroupHistory (s : ServerState) (groupID : String) : List Message :=
  (s.groupMessages.lookup groupID).getD []

/-- contains (backend/main.go lines 519-527): membership test on a slice. -/
def contains : List String → String → Bool
  | [], _ => false
  | v :: rest, str => if v == str then true else contains rest str

/-! ## Model of Go `time.Parse(time.RFC3339, s)` and `Time.After`

The source compares timestamps only through `time.Parse` followed by
`.After`, and the spec fixes the format: "timestamp (monotonically-intended
wall-clock, ISO-8601 string, generated server-side at receipt".  The parse
result is modelled as nanoseconds since the Unix epoch (an `Int`), so that
`t1.After(t2)` becomes `>` on `Int`. -/

/-- Numeric value of a decimal digit character. -/
def digitVal (c : Char) : Nat := c.toNat - 48

/-- Whether a character is a decimal digit. -/
def isDig (c : Char) : Bool := 48 ≤ c.toNat && c.toNat ≤ 57

/-- Two-digit decimal field. -/
def d2 (a b : Char) : Nat := digitVal a * 10 + digitVal b

/-- Leap year test of the proleptic Gregorian calendar. -/
def isLeap (y : Nat) : Bool := y % 4 == 0 && (y % 100 != 0 || y % 400 == 0)

/-- Number of days in a month, as validated by Go's date parser. -/
def daysInMonth (y m : Nat) : Nat :=
  if m == 2 then (if isLeap y then 29 else 28)
  else if m == 4 || m == 6 || m == 9 || m == 11 then 30
  else 31

/-- Days from the civil date to the Unix epoch 1970-01-01, via the Julian
day number of the Gregorian calendar. -/
def daysFromCivil (y m d : Nat) : Int :=
  let a : Nat := (14 - m) / 12
  let y2 : Int := (y : Int) + 4800 - (a : Int)
  let m2 : Int := (m : Int) + 12 * (a : Int) - 3
  (d : Int) + (153 * m2 + 2) / 5 + 365 * y2 + y2 / 4 - y2 / 100 + y2 / 400
    - 32045 - 2440588

/-- Nanoseconds denoted by the digits of a fractional-second field (at most
the first nine digits are significant, as in Go). -/
def nanosOfFrac (ds : List Char) : Nat :=
  let padded := ds.take 9 ++ List.replicate (9 - ds.length) '0'
  padded.foldl (fun n c => n * 10 + digitVal c) 0

/-- Timezone suffix of an RFC 3339 timestamp: `Z` or `±hh:mm`, returned as an
offset in seconds. -/
def parseOffset : List Char → Option Int
  | ['Z'] => some 0
  | [sg, h1, h2, ':', m1, m2] =>
    if (sg == '+' || sg == '-') && isDig h1 && isDig h2 && isDig m1 && isDig m2
        && d2 h1 h2 ≤ 23 && d2 m1 m2 ≤ 59 then
      let secs : Int := (d2 h1 h2 * 3600 + d2 m1 m2 * 60 : Nat)
      some (if sg == '-' then -secs else secs)
    else none
  | _ => none

/-- Fractional seconds and timezone tail of an RFC 3339 timestamp. -/
def parseFracOffset (rest : List Char) : Option (Nat × Int) :=
  match rest with
  | '.' :: r =>
    let ds := r.takeWhile isDig
    if ds.isEmpty then none
    else
      match parseOffset (r.dropWhile isDig) with
      | some off => some (nanosOfFrac ds, off)
      | none => none
  | _ =>
    match parseOffset rest with
    | some off => some (0, off)
    | none => none

/-- Model of `time.Parse(time.RFC3339, s)`, returning nanoseconds since the
Unix epoch on success and `none` on any format or range violation. -/
def timeParse (s : String) : Option Int :=
  match s.data with
  | y1 :: y2 :: y3 :: y4 :: '-' :: mo1 :: mo2 :: '-' :: dd1 :: dd2 :: 'T' ::
      h1 :: h2 :: ':' :: mi1 :: mi2 :: ':' :: ss1 :: ss2 :: rest =>
    if isDig y1 && isDig y2 && isDig y3 && isDig y4 && isDig mo1 && isDig mo2
        && isDig dd1 && isDig dd2 && isDig h1 && isDig h2 && isDig mi1
        && isDig mi2 && isDig ss1 && isDig ss2 then
      let y := ((digitVal y1 * 10 + digitVal y2) * 10 + digitVal y3) * 10 + digitVal y4
      let mo := d2 mo1 mo2
      let d := d2 dd1 dd2
      let hh := d2 h1 h2
      let mi := d2 mi1 mi2
      let ss := d2 ss1 ss2
      if 1 ≤ mo && mo ≤ 12 && 1 ≤ d && d ≤ daysInMonth y mo && hh ≤ 23
          && mi ≤ 59 && ss ≤ 59 then
        match parseFracOffset rest with
        | some (nanos, off) =>
          some ((daysFromCivil y mo d * 86400 + (hh * 3600 + mi * 60 + ss : Nat) - off)
            * 1000000000 + (nanos : Int))
        | none => none
      else none
    else none
  | _ => none

/-! ## Outbound delivery -/

/-- The `select`/`default` enqueue idiom shared by every broadcast loop
(e.g. backend/main.go lines 407-418, 433-443, 504-514, 541-552): if the
client's bounded send channel has room, enqueue the frame; otherwise drop the
frame, remove the client from the registry and close its channel. -/
def enqueueOrEvict (clients : AssocMap Client) (username : String) (c : Client)
    (message : Frame) : AssocMap Client :=
  if c.send.length < sendQueueCapacity then
    setA clients username { c with send := c.send ++ [message] }
  else
    eraseA clients username

/-- sendToUser (backend/main.go lines 423-444): look the recipient up; absent
recipients are a silent no-op; on a full queue the client is evicted. -/
def sendToUser (clients : AssocMap Client) (username : String) (message : Frame) :
    AssocMap Client :=
  match clients.lookup username with
  | none => clients
  | some client => enqueueOrEvict clients username client message

/-- sendToGroup (backend/main.go lines 446-463): no-op if the group is
absent; otherwise send to every member over a copy of the member list. -/
def sendToGroup (groups : AssocMap Group) (clients : AssocMap Client)
    (groupName : String) (message : Frame) : AssocMap Client :=
  match groups.lookup groupName with
  | none => clients
  | some group =>
    group.Members.foldl (fun acc member => sendToUser acc member message) clients

/-- broadcastMessage (backend/main.go lines 529-555): snapshot the clients
map, then enqueue-or-evict for each snapshotted client. -/
def broadcastMessage (clients : AssocMap Client) (message : Frame) :
    AssocMap Client :=
  clients.foldl (fun acc p => enqueueOrEvict acc p.1 p.2 message) clients

/-- sendUserList (backend/main.go lines 377-421): broadcast the map of
registered handles to every client, evicting clients with full queues. -/
def sendUserList (clients : AssocMap Client) (now : String) : AssocMap Client :=
  let userList := clients.map (fun p => (p.1, p.1))
  clients.foldl (fun acc p => enqueueOrEvict acc p.1 p.2 (Frame.userList userList now))
    clients

/-- sendGroupList (backend/main.go lines 465-517): for each client, the list
of groups filtered to those it is a member of, enqueued with the same
evict-on-full policy. -/
def sendGroupList (groups : AssocMap Group) (clients : AssocMap Client)
    (now : String) : AssocMap Client :=
  clients.foldl
    (fun acc p =>
      let userGroups := (groups.filter (fun g => contains g.2.Members p.1)).map
        (fun g => g.2)
      enqueueOrEvict acc p.1 p.2 (Frame.groupList userGroups now))
    clients

/-! ## Unread counts and last-seen tracking -/

/-- The key classification shared by both scans of getUnreadCount
(backend/main.go lines 797-815 and 840-864): split the stored conversation
key on `:`; skip keys that do not split in two; take the other participant
to be the first part, or the second if the first is the querying user; count
the conversation when that other participant equals `chatID`. -/
def privEntryCounted (username chatID key : String) : Bool :=
  match splitGo key.data ':' with
  | [p0, p1] => (if p0 == username then p1 else p0) == chatID
  | _ => false

/-- Count of messages in one conversation not sent by `username`
(the inner loop of getUnreadCount's no-last-seen branch,
backend/main.go lines 809-813). -/
def countAllFrom (msgs : List Message) (username : String) : Nat :=
  msgs.countP (fun m => m.From != username)

/-- Count of messages not sent by `username` whose (parseable) timestamp is
strictly after `lastSeenTime` (the inner loop of getUnreadCount's last-seen
branch, backend/main.go lines 852-861; unparseable timestamps are skipped). -/
def countAfterFrom (msgs : List Message) (username : String) (lastSeenTime : Int) :
    Nat :=
  msgs.countP (fun m =>
    m.From != username &&
      match timeParse m.Timestamp with
      | none => false
      | some msgTime => decide (msgTime > lastSeenTime))

/-- The scan over all private conversations in getUnreadCount's
no-last-seen branch (backend/main.go lines 796-815). -/
def privUnreadAll : AssocMap (List Message) → String → String → Nat
  | [], _, _ => 0
  | p :: rest, username, chatID =>
    (if privEntryCounted username chatID p.1 then countAllFrom p.2 username else 0)
      + privUnreadAll rest username chatID

/-- The scan over all private conversations in getUnreadCount's last-seen
branch (backend/main.go lines 839-864). -/
def privUnreadAfter : AssocMap (List Message) → String → String → Int → Nat
  | [], _, _, _ => 0
  | p :: rest, username, chatID, lastSeenTime =>
    (if privEntryCounted username chatID p.1 then
        countAfterFrom p.2 username lastSeenTime
      else 0)
      + privUnreadAfter rest username chatID lastSeenTime

/-- getUnreadCount (backend/main.go lines 784-883).  With no last-seen entry
for the pair, count every message not sent by `username` in each private
conversation the key classification selects, plus the group log under
`chatID`.  With a last-seen entry, parse it (returning 0 on failure) and
count only messages strictly newer. -/
def getUnreadCount (s : ServerState) (username chatID : String) : Nat :=
  match (s.lastSeenTimestamps.lookup username).bind (fun inner => inner.lookup chatID) with
  | none =>
    privUnreadAll s.privateMessages username chatID
      + countAllFrom ((s.groupMessages.lookup chatID).getD []) username
  | some lastSeen =>
    match timeParse lastSeen with
    | none => 0
    | some lastSeenTime =>
      privUnreadAfter s.privateMessages username chatID lastSeenTime
        + countAfterFrom ((s.groupMessages.lookup chatID).getD []) username lastSeenTime

/-- updateLastSeen (backend/main.go lines 759-782): store the supplied
timestamp when it is non-empty and parses as RFC 3339, otherwise fall back to
the server's current time `now`. -/
def updateLastSeen (s : ServerState) (username chatID timestamp now : String) :
    ServerState :=
  let inner := (s.lastSeenTimestamps.lookup username).getD []
  let value :=
    if timestamp != "" && (timeParse timestamp).isSome then timestamp else now
  let updated := setA s.lastSeenTimestamps username (setA inner chatID value)
  { s with lastSeenTimestamps := updated }

/-- Opaque rendering of the per-chat unread-count mapping carried in the
`content` field of an `unread_count` message (the source uses `json.Marshal`;
no consumer in the core ever re-reads it). -/
def encodeCounts (counts : List (String × Nat)) : String :=
  String.intercalate "," (counts.map (fun p => p.1 ++ ":" ++ toString p.2))

/-- sendUnreadCounts (backend/main.go lines 885-937): collect positive unread
counts for every other registered user and every group the user belongs to,
then send them to the user as an `unread_count` message. -/
def sendUnreadCounts (s : ServerState) (username now : String) : AssocMap Client :=
  let counts1 := s.clients.foldl
    (fun acc p =>
      if p.1 != username then
        let count := getUnreadCount s username p.1
        if count > 0 then acc ++ [(p.1, count)] else acc
      else acc) []
  let counts := s.groups.foldl
    (fun acc p =>
      if contains p.2.Members username then
        let count := getUnreadCount s username p.1
        if count > 0 then acc ++ [(p.1, count)] else acc
      else acc) counts1
  let message : Message :=
    { type := TypeUnreadCount, From := "system", To := username,
      Content := encodeCounts counts, Timestamp := now }
  sendToUser s.clients username (Frame.message message)

/-- sendMessageHistory (backend/main.go lines 729-757): build the history
frame for a private conversation or a group and enqueue it on the requesting
client's channel; on a full queue the frame is dropped and nothing else
happens. -/
def sendMessageHistory (s : ServerState) (username chatType chatID now : String) :
    AssocMap Client :=
  let history :=
    if chatType == "private" then getConversationHistory s username chatID
    else if chatType == "group" then getGroupHistory s chatID
    else []
  let frame := Frame.history history now
  match s.clients.lookup username with
  | none => s.clients
  | some client =>
    if client.send.length < sendQueueCapacity then
      setA s.clients username { client with send := client.send ++ [frame] }
    else
      s.clients

/-! ## Group lifecycle handlers -/

/-- createGroup (backend/main.go lines 567-601): split the member list from
`content` on commas (rejecting only when the split is empty, which
`strings.Split` never produces), store the group under its name with the
creator as admin and first member, notify the group, and push group lists. -/
def createGroup (s : ServerState) (msg : Message) (now : String) : ServerState :=
  let members := splitGo msg.Content.data ','
  if members.length == 0 then s
  else
    let group : Group := { Name := msg.To, Admin := msg.From,
                           Members := msg.From :: members }
    let s1 := { s with groups := setA s.groups msg.To group }
    let notification : Message :=
      { type := TypeSystem, From := "", To := "",
        Content := "Group " ++ msg.To ++ " created by " ++ msg.From,
        Timestamp := now }
    let c1 := sendToGroup s1.groups s1.clients msg.To (Frame.message notification)
    let c2 := sendGroupList s1.groups c1 now
    { s1 with clients := c2 }

/-- addGroupMember (backend/main.go lines 603-637): no-op when the group is
absent or the requester is not the admin; otherwise append the new member
(no membership check), notify the group, and push group lists. -/
def addGroupMember (s : ServerState) (msg : Message) (now : String) : ServerState :=
  match s.groups.lookup msg.To with
  | none => s
  | some group =>
    if group.Admin != msg.From then s
    else
      let group1 := { group with Members := group.Members ++ [msg.Content] }
      let s1 := { s with groups := setA s.groups msg.To group1 }
      let notification : Message :=
        { type := TypeSystem, From := "", To := "",
          Content := msg.From ++ " added " ++ msg.Content ++ " to the group",
          Timestamp := now }
      let c1 := sendToGroup s1.groups s1.clients msg.To (Frame.message notification)
      let c2 := sendGroupList s1.groups c1 now
      { s1 with clients := c2 }

/-- removeGroupMember (backend/main.go lines 639-679): no-op when the group
is absent or the requester is not the admin; otherwise drop every occurrence
of the target from the member list (the group is kept even if the list
becomes empty and the admin is never reassigned), notify the group, and push
group lists. -/
def removeGroupMember (s : ServerState) (msg : Message) (now : String) :
    ServerState :=
  match s.groups.lookup msg.To with
  | none => s
  | some group =>
    if group.Admin != msg.From then s
    else
      let newMembers := group.Members.filter (fun member => member != msg.Content)
      let group1 := { group with Members := newMembers }
      let s1 := { s with groups := setA s.groups msg.To group1 }
      let notification : Message :=
        { type := TypeSystem, From := "", To := "",
          Content := msg.From ++ " removed " ++ msg.Content ++ " from the group",
          Timestamp := now }
      let c1 := sendToGroup s1.groups s1.clients msg.To (Frame.message notification)
      let c2 := sendGroupList s1.groups c1 now
      { s1 with clients := c2 }

/-- leaveGroup (backend/main.go lines 681-727): any member may leave; drop
every occurrence of the requester from the member list; delete the group if
the list became empty, otherwise reassign the admin to the first remaining
member when the admin left; then notify the group and push group lists. -/
def leaveGroup (s : ServerState) (msg : Message) (now : String) : ServerState :=
  match s.groups.lookup msg.To with
  | none => s
  | some group =>
    let newMembers := group.Members.filter (fun member => member != msg.From)
    let s1 :=
      match newMembers with
      | [] => { s with groups := eraseA s.groups msg.To }
      | m0 :: rest =>
        let newAdmin := if group.Admin == msg.From then m0 else group.Admin
        let group1 := { group with Members := m0 :: rest, Admin := newAdmin }
        { s with groups := setA s.groups msg.To group1 }
    let notification : Message :=
      { type := TypeSystem, From := "", To := "",
        Content := msg.From ++ " left the group", Timestamp := now }
    let c1 := sendToGroup s1.groups s1.clients msg.To (Frame.message notification)
    let c2 := sendGroupList s1.groups c1 now
    { s1 with clients := c2 }

/-! ## The group-message branch of the router -/

/-- The `TypeGroupMessage` case of readPump's dispatch (backend/main.go lines
319-334), on a message already stamped with the session's handle and the
server timestamp: store the message unconditionally, fan it out to the group
(a no-op when the group is absent), then push unread counts to every member
other than the sender (skipped entirely when the group is absent). -/
def handleGroupMessage (s : ServerState) (msg : Message) (now : String) :
    ServerState :=
  let s1 := storeMessage s msg
  let s2 := { s1 with clients := sendToGroup s1.groups s1.clients msg.To (Frame.message msg) }
  match s2.groups.lookup msg.To with
  | none => s2
  | some group =>
    group.Members.foldl
      (fun st member =>
        if member != msg.From then { st with clients := sendUnreadCounts st member now }
        else st)
      s2

/-! ## Registry and session lifecycle -/

/-- Registration state for the connection registry, with session identity
made explicit so that the fate of a replaced session can be stated.
`clients` maps a handle to the identifier of its registered session;
`closedSessions` records every session whose send channel has been closed. -/
structure RegistryState where
  clients : AssocMap Nat
  closedSessions : List Nat
deriving DecidableEq, Repr

/-- The registration step of the websocket handler (backend/main.go lines
217-223): under the write lock, close the send channel of any existing
session for the handle, then install the new session. -/
def registerClient (st : RegistryState) (username : String) (sessionId : Nat) :
    RegistryState :=
  let closed :=
    match st.clients.lookup username with
    | some existingId => existingId :: st.closedSessions
    | none => st.closedSessions
  { clients := setA st.clients username sessionId, closedSessions := closed }

/-- The deferred cleanup of a session's receive loop (backend/main.go lines
277-283): `delete(clients, c.Username)` — unconditionally by handle, with no
check that the registry still maps the handle to this session. -/
def readPumpCleanup (st : RegistryState) (username : String) : RegistryState :=
  { st with clients := eraseA st.clients username }

/-! ## Association map lemmas -/

theorem lookup_setA_self {β : Type} : ∀ (l : AssocMap β) (k : String) (v : β),
    (setA l k v).lookup k = some v
  | [], k, v => by simp [setA, List.lookup]
  | (k', v') :: rest, k, v => by
    by_cases h : k' = k
    · subst h
      simp [setA, List.lookup]
    · have hb : (k' == k) = false := beq_false_of_ne h
      have hb2 : (k == k') = false := beq_false_of_ne (Ne.symm h)
      simp only [setA, hb, if_false, Bool.false_eq_true, List.lookup, hb2]
      exact lookup_setA_self rest k v

theorem lookup_setA_ne {β : Type} : ∀ (l : AssocMap β) (k k' : String) (v : β),
    k' ≠ k → (setA l k v).lookup k' = l.lookup k'
  | [], k, k', v, h => by
    simp [setA, List.lookup, beq_false_of_ne h]
  | (k0, v0) :: rest, k, k', v, h => by
    by_cases h0 : k0 = k
    · subst h0
      simp [setA, List.lookup, beq_false_of_ne h]
    · have hb : (k0 == k) = false := beq_false_of_ne h0
      simp only [setA, hb, Bool.false_eq_true, if_false, List.lookup]
      cases hk : k' == k0 with
      | true => rfl
      | false => exact lookup_setA_ne rest k k' v h

theorem lookup_eraseA_self {β : Type} : ∀ (l : AssocMap β) (k : String),
    (eraseA l k).lookup k = none
  | [], k => by simp [eraseA, List.lookup]
  | (k0, v0) :: rest, k => by
    by_cases h : k0 = k
    · subst h
      simp only [eraseA, List.filter, bne_self_eq_false]
      exact lookup_eraseA_self rest k0
    · have hb : (k0 != k) = true := bne_iff_ne.mpr h
      have hb2 : (k == k0) = false := beq_false_of_ne (Ne.symm h)
      simp only [eraseA, List.filter, hb, List.lookup, hb2]
      exact lookup_eraseA_self rest k

theorem lookup_eraseA_ne {β : Type} : ∀ (l : AssocMap β) (k k' : String),
    k' ≠ k → (eraseA l k).lookup k' = l.lookup k'
  | [], k, k', h => by simp [eraseA, List.lookup]
  | (k0, v0) :: rest, k, k', h => by
    by_cases h0 : k0 = k
    · subst h0
      have hb2 : (k' == k0) = false := beq_false_of_ne h
      simp only [eraseA, List.filter, bne_self_eq_false, List.lookup, hb2]
      exact lookup_eraseA_ne rest k0 k' h
    · have hb : (k0 != k) = true := bne_iff_ne.mpr h0
      simp only [eraseA, List.filter, hb, List.lookup]
      cases hk : k' == k0 with
      | true => rfl
      | false => exact lookup_eraseA_ne rest k k' h

theorem mem_setA {β : Type} : ∀ (l : AssocMap β) (k : String) (v : β) (p : String × β),
    p ∈ setA l k v → p = (k, v) ∨ p ∈ l
  | [], k, v, p, h => by
    simp [setA] at h
    exact Or.inl h
  | (k0, v0) :: rest, k, v, p, h => by
    by_cases h0 : k0 = k
    · subst h0
      simp only [setA, beq_self_eq_true, if_true, List.mem_cons] at h
      rcases h with h | h
      · exact Or.inl h
      · exact Or.inr (List.mem_cons_of_mem _ h)
    · have hb : (k0 == k) = false := beq_false_of_ne h0
      simp only [setA, hb, Bool.false_eq_true, if_false, List.mem_cons] at h
      rcases h with h | h
      · exact Or.inr (by simp [h])
      · rcases mem_setA rest k v p h with h1 | h1
        · exact Or.inl h1
        · exact Or.inr (List.mem_cons_of_mem _ h1)

theorem mem_eraseA {β : Type} (l : AssocMap β) (k : String) (p : String × β)
    (h : p ∈ eraseA l k) : p ∈ l :=
  List.mem_of_mem_filter h

theorem mem_of_lookup_eq_some {β : Type} : ∀ (l : AssocMap β) (k : String) (v : β),
    l.lookup k = some v → (k, v) ∈ l
  | [], k, v, h => by simp [List.lookup] at h
  | (k0, v0) :: rest, k, v, h => by
    by_cases h0 : k = k0
    · subst h0
      simp only [List.lookup, beq_self_eq_true] at h
      simp only [List.mem_cons]
      exact Or.inl (by simp [← Option.some_inj.mp h])
    · have hb : (k == k0) = false := beq_false_of_ne h0
      simp only [List.lookup, hb] at h
      exact List.mem_cons_of_mem _ (mem_of_lookup_eq_some rest k v h)

/-! ## String comparison lemmas -/

theorem char_eq_of_toNat_eq {a b : Char} (h : a.toNat = b.toNat) : a = b :=
  Char.eq_of_val_eq (UInt32.toNat.inj h)

theorem lexLt_asymm : ∀ a b : List Char, lexLt a b = true → lexLt b a = false
  | [], [] => by simp [lexLt]
  | [], _ :: _ => by simp [lexLt]
  | _ :: _, [] => by simp [lexLt]
  | a :: as, b :: bs => by
    simp only [lexLt]
    intro h
    by_cases h1 : a.toNat < b.toNat
    · simp [h1, Nat.lt_asymm h1]
    · by_cases h2 : b.toNat < a.toNat
      · simp [h1, h2] at h
      · simp only [h1, h2, if_false, ite_false, ite_true] at h ⊢
        exact lexLt_asymm as bs h

theorem lexLt_total : ∀ a b : List Char, lexLt a b = false → lexLt b a = false → a = b
  | [], [] => by simp
  | [], _ :: _ => by simp [lexLt]
  | _ :: _, [] => by simp [lexLt]
  | a :: as, b :: bs => by
    simp only [lexLt]
    intro h1 h2
    by_cases hab : a.toNat < b.toNat
    · simp [hab] at h1
    · by_cases hba : b.toNat < a.toNat
      · simp [hab, hba] at h2
      · have hc : a = b :=
          char_eq_of_toNat_eq (Nat.le_antisymm (Nat.le_of_not_lt hba) (Nat.le_of_not_lt hab))
        subst hc
        simp only [lt_irrefl, if_false, ite_false] at h1 h2
        have := lexLt_total as bs (by simpa using h1) (by simpa using h2)
        rw [this]

theorem string_eq_of_data_eq {a b : String} (h : a.data = b.data) : a = b := by
  cases a; cases b
  simp only at h
  rw [h]

theorem goLess_or_of_ne {a b : String} (h : a ≠ b) :
    goLess a b = true ∨ goLess b a = true := by
  by_cases h1 : goLess a b = true
  · exact Or.inl h1
  · by_cases h2 : goLess b a = true
    · exact Or.inr h2
    · exact absurd
        (string_eq_of_data_eq (lexLt_total _ _ (by simpa [goLess] using h1)
          (by simpa [goLess] using h2))) h

theorem goLess_asymm {a b : String} (h : goLess a b = true) : goLess b a = false :=
  lexLt_asymm _ _ h

/-! ## Miscellaneous facts about the embedded library functions -/

theorem splitGo_ne_nil : ∀ (l : List Char) (sep : Char), splitGo l sep ≠ []
  | [], _ => by simp [splitGo]
  | c :: rest, sep => by
    simp only [splitGo]
    cases h : splitGo rest sep with
    | nil => simp
    | cons hd tl =>
      by_cases hc : c == sep
      · simp [hc]
      · simp [hc]

theorem timeParse_empty : timeParse "" = none := rfl

theorem timeParse_ne_empty {t : String} {x : Int} (h : timeParse t = some x) :
    t ≠ "" := by
  intro he
  rw [he, timeParse_empty] at h
  exact Option.noConfusion h

/-- The effect of createGroup on the group directory: the new group is
always installed, whatever was there before. -/
theorem createGroup_groups (s : ServerState) (msg : Message) (now : String) :
    (createGroup s msg now).groups
      = setA s.groups msg.To
          { Name := msg.To, Admin := msg.From,
            Members := msg.From :: splitGo msg.Content.data ',' } := by
  have hs := splitGo_ne_nil msg.Content.data ','
  have hlen : ((splitGo msg.Content.data ',').length == 0) = false := by
    cases h : splitGo msg.Content.data ',' with
    | nil => exact absurd h hs
    | cons a l => simp
  simp only [createGroup, hlen, Bool.false_eq_true, if_false]

/-! ## Claim C1: registration, forced closure and cleanup -/

/-- C1: the claim states that after `register(h, s1)` then `register(h, s2)`,
including the forced closure and the cleanup of s1's receive loop, the
Registry contains exactly one live session for `h` (namely s2).  In the code
the deferred cleanup of s1's receive loop runs `delete(clients, c.Username)`
unconditionally, which removes s2's freshly installed registration: for every
starting state the registry ends with no session at all under `h` (while s1
has indeed been closed), contradicting the claim. -/
theorem cleanup_after_rereg_empties_registry (st : RegistryState) (h : String)
    (s1 s2 : Nat) :
    (readPumpCleanup (registerClient (registerClient st h s1) h s2) h).clients.lookup h
        = none ∧
      s1 ∈ (readPumpCleanup (registerClient (registerClient st h s1) h s2) h).closedSessions := by
  constructor
  · exact lookup_eraseA_self _ h
  · simp only [readPumpCleanup, registerClient, lookup_setA_self]
    exact List.mem_cons_self s1 _

/-! ## Claim C3: deletion of emptied groups -/

/-- Group with the admin as sole member, used to exercise emptying a group
through `removeGroupMember`. -/
def groupC3 : Group := { Name := "g", Admin := "A", Members := ["A"] }

/-- State holding just `groupC3`. -/
def stateC3 : ServerState :=
  { clients := [], groups := [("g", groupC3)], privateMessages := [],
    groupMessages := [], lastSeenTimestamps := [] }

/-- Admin "A" removing themself from group "g". -/
def msgC3 : Message :=
  { type := TypeRemoveGroupMember, From := "A", To := "g", Content := "A",
    Timestamp := "t" }

/-- C3: the claim (and §4.5 of the spec) states that a remove operation that
empties a group's member set deletes the group from the Group Directory.
Evaluating `removeGroupMember` at the failing input — admin "A" removing
themself from a group whose member set is exactly {"A"} — leaves the group
present in the directory with an empty member list: the deletion step
implemented in `leaveGroup` is missing from `removeGroupMember`. -/
theorem removeGroupMember_keeps_empty_group :
    ((removeGroupMember stateC3 msgC3 "t").groups.lookup "g"
        = some { Name := "g", Admin := "A", Members := [] }) ∧
      (leaveGroup stateC3 { msgC3 with type := TypeLeaveGroup } "t").groups.lookup "g"
        = none := by
  decide

/-! ## Claim C5: createGroup -/

/-- A pre-existing live group named "g" with admin "A". -/
def groupC5 : Group := { Name := "g", Admin := "A", Members := ["A"] }

/-- State holding just `groupC5`. -/
def stateC5 : ServerState :=
  { clients := [], groups := [("g", groupC5)], privateMessages := [],
    groupMessages := [], lastSeenTimestamps := [] }

/-- Request by "X" to create a group whose name collides with live group "g". -/
def msgC5 : Message :=
  { type := TypeCreateGroup, From := "X", To := "g", Content := "B",
    Timestamp := "t" }

/-- C5 counterexample: the claim states that `create_group` leaves the Group
Directory unchanged when the requested name equals the identifier of a live
group.  With live group "g" (admin "A") and a creation request for "g" by
"X", the directory entry for "g" is overwritten with the new group. -/
theorem createGroup_collision_overwrites :
    stateC5.groups.lookup "g" = some { Name := "g", Admin := "A", Members := ["A"] } ∧
      (createGroup stateC5 msgC5 "t").groups.lookup "g"
        = some { Name := "g", Admin := "X", Members := ["X", "B"] } := by
  decide

/-- C5 (amended): `create_group` never rejects and never deduplicates: for
every state and request it installs (overwriting any live group of the same
name) the group whose admin is the creator and whose member list is the
creator prepended to the comma-split of the supplied content; the
empty-member-list guard is dead code because the split is never empty. -/
theorem createGroup_always_installs (s : ServerState) (msg : Message) (now : String) :
    (createGroup s msg now).groups
        = setA s.groups msg.To
            { Name := msg.To, Admin := msg.From,
              Members := msg.From :: splitGo msg.Content.data ',' } ∧
      splitGo msg.Content.data ',' ≠ [] :=
  ⟨createGroup_groups s msg now, splitGo_ne_nil msg.Content.data ','⟩

/-- C5 witness: the amended theorem evaluated at the collision input. -/
theorem createGroup_always_installs_witness :
    (createGroup stateC5 msgC5 "t").groups
        = setA stateC5.groups msgC5.To
            { Name := msgC5.To, Admin := msgC5.From,
              Members := msgC5.From :: splitGo msgC5.Content.data ',' } ∧
      splitGo msgC5.Content.data ',' ≠ [] :=
  createGroup_always_installs stateC5 msgC5 "t"

/-! ## Claim C2: the admin-membership invariant -/

/-- Group "g" with admin "A" and members {"A", "B"}. -/
def groupC2 : Group := { Name := "g", Admin := "A", Members := ["A", "B"] }

/-- State holding just `groupC2`. -/
def stateC2 : ServerState :=
  { clients := [], groups := [("g", groupC2)], privateMessages := [],
    groupMessages := [], lastSeenTimestamps := [] }

/-- Admin "A" removing themself from "g" through remove_group_member. -/
def msgC2 : Message :=
  { type := TypeRemoveGroupMember, From := "A", To := "g", Content := "A",
    Timestamp := "t" }

/-- C2 counterexample: the admin invariant holds of the initial directory,
yet after the admin removes themself via `removeGroupMember` the surviving
group's admin is no longer a member: the claim fails as stated. -/
theorem removeGroupMember_breaks_admin_invariant :
    (∀ p ∈ stateC2.groups, p.2.Admin ∈ p.2.Members) ∧
      ¬ (∀ p ∈ (removeGroupMember stateC2 msgC2 "t").groups,
          p.2.Admin ∈ p.2.Members) := by
  decide

/-- C2 (amended): if every group's admin is one of its members, then the
same holds after `createGroup`, `addGroupMember` and `leaveGroup`, and after
`removeGroupMember` whenever the removed handle is not the requesting admin
themself; the sole violation is an admin self-removal, which leaves the
departed admin installed (the code neither deletes the group nor reassigns
the admin there). -/
theorem adminInvariant_mutations (s : ServerState) (msg : Message) (now : String)
    (hinv : ∀ p ∈ s.groups, p.2.Admin ∈ p.2.Members) :
    (∀ p ∈ (createGroup s msg now).groups, p.2.Admin ∈ p.2.Members) ∧
      (∀ p ∈ (addGroupMember s msg now).groups, p.2.Admin ∈ p.2.Members) ∧
      (∀ p ∈ (leaveGroup s msg now).groups, p.2.Admin ∈ p.2.Members) ∧
      (msg.Content ≠ msg.From →
        ∀ p ∈ (removeGroupMember s msg now).groups, p.2.Admin ∈ p.2.Members) := by
  refine ⟨?_, ?_, ?_, ?_⟩
  · rw [createGroup_groups]
    intro p hp
    rcases mem_setA _ _ _ _ hp with h1 | h1
    · subst h1
      exact List.mem_cons_self _ _
    · exact hinv p h1
  · cases hg : s.groups.lookup msg.To with
    | none =>
      simp only [addGroupMember, hg]
      exact hinv
    | some g =>
      by_cases hadm : (g.Admin != msg.From) = true
      · simp only [addGroupMember, hg, hadm, if_true]
        exact hinv
      · have hadm2 : (g.Admin != msg.From) = false := by
          simpa using hadm
        simp only [addGroupMember, hg, hadm2, Bool.false_eq_true, if_false]
        intro p hp
        rcases mem_setA _ _ _ _ hp with h1 | h1
        · subst h1
          exact List.mem_append_left _ (hinv (msg.To, g) (mem_of_lookup_eq_some _ _ _ hg))
        · exact hinv p h1
  · cases hg : s.groups.lookup msg.To with
    | none =>
      simp only [leaveGroup, hg]
      exact hinv
    | some g =>
      cases hm : g.Members.filter (fun member => member != msg.From) with
      | nil =>
        simp only [leaveGroup, hg, hm]
        intro p hp
        exact hinv p (mem_eraseA _ _ _ hp)
      | cons m0 rest =>
        simp only [leaveGroup, hg, hm]
        intro p hp
        rcases mem_setA _ _ _ _ hp with h1 | h1
        · subst h1
          by_cases hA : (g.Admin == msg.From) = true
          · simp only [hA, if_true]
            exact List.mem_cons_self _ _
          · have hA2 : (g.Admin == msg.From) = false := by simpa using hA
            simp only [hA2, Bool.false_eq_true, if_false]
            rw [← hm]
            exact List.mem_filter.mpr
              ⟨hinv (msg.To, g) (mem_of_lookup_eq_some _ _ _ hg),
                bne_iff_ne.mpr (ne_of_beq_false hA2)⟩
        · exact hinv p h1
  · intro hC
    cases hg : s.groups.lookup msg.To with
    | none =>
      simp only [removeGroupMember, hg]
      exact hinv
    | some g =>
      by_cases hadm : (g.Admin != msg.From) = true
      · simp only [removeGroupMember, hg, hadm, if_true]
        exact hinv
      · have hadm2 : (g.Admin != msg.From) = false := by simpa using hadm
        have hAeq : g.Admin = msg.From := by
          simpa using hadm2
        simp only [removeGroupMember, hg, hadm2, Bool.false_eq_true, if_false]
        intro p hp
        rcases mem_setA _ _ _ _ hp with h1 | h1
        · subst h1
          refine List.mem_filter.mpr
            ⟨hinv (msg.To, g) (mem_of_lookup_eq_some _ _ _ hg), ?_⟩
          rw [hAeq]
          exact bne_iff_ne.mpr (Ne.symm hC)
        · exact hinv p h1

/-- Request by admin "A" to remove the other member "B". -/
def msgC2w : Message :=
  { type := TypeRemoveGroupMember, From := "A", To := "g", Content := "B",
    Timestamp := "t" }

/-- C2 witness: the amended invariant theorem applied at the two-member
group, with a removal target distinct from the admin. -/
theorem adminInvariant_mutations_witness :
    (∀ p ∈ stateC2.groups, p.2.Admin ∈ p.2.Members) ∧
      ((∀ p ∈ (createGroup stateC2 msgC2w "t").groups, p.2.Admin ∈ p.2.Members) ∧
        (∀ p ∈ (addGroupMember stateC2 msgC2w "t").groups, p.2.Admin ∈ p.2.Members) ∧
        (∀ p ∈ (leaveGroup stateC2 msgC2w "t").groups, p.2.Admin ∈ p.2.Members) ∧
        (msgC2w.Content ≠ msgC2w.From →
          ∀ p ∈ (removeGroupMember stateC2 msgC2w "t").groups,
            p.2.Admin ∈ p.2.Members)) :=
  ⟨by decide, adminInvariant_mutations stateC2 msgC2w "t" (by decide)⟩

/-! ## Claim C10: add has no membership check; remove and leave drop all
occurrences -/

/-- C10: a successful `addGroupMember` appends the new member with no
membership check, so a handle already present appears at least twice
afterwards; `removeGroupMember` (by the admin) and `leaveGroup` instead
remove every occurrence of the target handle in one operation. -/
theorem memberList_add_remove_leave (s : ServerState) (msg : Message)
    (now : String) (g : Group) (hg : s.groups.lookup msg.To = some g)
    (hadm : g.Admin = msg.From) :
    ((addGroupMember s msg now).groups.lookup msg.To
        = some { g with Members := g.Members ++ [msg.Content] }) ∧
      (msg.Content ∈ g.Members →
        2 ≤ (g.Members ++ [msg.Content]).count msg.Content) ∧
      ((removeGroupMember s msg now).groups.lookup msg.To
          = some { g with Members := g.Members.filter (fun m => m != msg.Content) } ∧
        msg.Content ∉ g.Members.filter (fun m => m != msg.Content)) ∧
      (∀ g2, (leaveGroup s msg now).groups.lookup msg.To = some g2 →
        msg.From ∉ g2.Members) := by
  have hadm2 : (g.Admin != msg.From) = false := by
    rw [hadm]
    exact bne_self_eq_false _
  refine ⟨?_, ?_, ⟨?_, ?_⟩, ?_⟩
  · simp only [addGroupMember, hg, hadm2, Bool.false_eq_true, if_false]
    exact lookup_setA_self _ _ _
  · intro hmem
    rw [List.count_append]
    have h1 : 0 < g.Members.count msg.Content := List.count_pos_iff.mpr hmem
    have h2 : [msg.Content].count msg.Content = 1 := by simp
    omega
  · simp only [removeGroupMember, hg, hadm2, Bool.false_eq_true, if_false]
    exact lookup_setA_self _ _ _
  · intro hmem
    have := (List.mem_filter.mp hmem).2
    simp at this
  · intro g2 hg2
    cases hm : g.Members.filter (fun member => member != msg.From) with
    | nil =>
      simp only [leaveGroup, hg, hm, lookup_eraseA_self] at hg2
      exact Option.noConfusion hg2
    | cons m0 rest =>
      simp only [leaveGroup, hg, hm, lookup_setA_self] at hg2
      intro hmem
      rw [← Option.some_inj.mp hg2] at hmem
      simp only at hmem
      rw [← hm] at hmem
      have := (List.mem_filter.mp hmem).2
      simp at this

/-- Group used to witness C10: "B" is already a member. -/
def groupC10 : Group := { Name := "g", Admin := "A", Members := ["A", "B"] }

/-- State holding just `groupC10`. -/
def stateC10 : ServerState :=
  { clients := [], groups := [("g", groupC10)], privateMessages := [],
    groupMessages := [], lastSeenTimestamps := [] }

/-- Admin request naming the already-present member "B". -/
def msgC10 : Message :=
  { type := TypeAddGroupMember, From := "A", To := "g", Content := "B",
    Timestamp := "t" }

/-- C10 witness: the membership theorem applied to a group that already
contains the added handle. -/
theorem memberList_add_remove_leave_witness :
    (stateC10.groups.lookup msgC10.To = some groupC10 ∧ groupC10.Admin = msgC10.From) ∧
      (((addGroupMember stateC10 msgC10 "t").groups.lookup msgC10.To
          = some { groupC10 with Members := groupC10.Members ++ [msgC10.Content] }) ∧
        (msgC10.Content ∈ groupC10.Members →
          2 ≤ (groupC10.Members ++ [msgC10.Content]).count msgC10.Content) ∧
        (((removeGroupMember stateC10 msgC10 "t").groups.lookup msgC10.To
            = some { groupC10 with
                Members := groupC10.Members.filter (fun m => m != msgC10.Content) } ∧
          msgC10.Content ∉ groupC10.Members.filter (fun m => m != msgC10.Content))) ∧
        (∀ g2, (leaveGroup stateC10 msgC10 "t").groups.lookup msgC10.To = some g2 →
          msgC10.From ∉ g2.Members)) :=
  ⟨⟨by decide, by decide⟩,
    memberList_add_remove_leave stateC10 msgC10 "t" groupC10 (by decide) (by decide)⟩

/-! ## Claim C8: canonical conversation keys are symmetric -/

/-- A private message from "alice" to "bob" used to witness C8. -/
def msgC8 : Message :=
  { type := TypePrivateMessage, From := "alice", To := "bob", Content := "hi",
    Timestamp := "2024-01-01T00:00:00Z" }

/-- State with one stored message between "alice" and "bob". -/
def stateC8 : ServerState :=
  { clients := [], groups := [], privateMessages := [("alice:bob", [msgC8])],
    groupMessages := [], lastSeenTimestamps := [] }

/-- C8: for distinct handles the canonical conversation key is symmetric,
and consequently the private history returned to either participant of a
conversation is the identical message sequence. -/
theorem conversationKey_symm (s : ServerState) (a b : String) (h : a ≠ b) :
    getConversationKey a b = getConversationKey b a ∧
      getConversationHistory s a b = getConversationHistory s b a := by
  have hkey : getConversationKey a b = getConversationKey b a := by
    unfold getConversationKey
    rcases goLess_or_of_ne h with h1 | h1
    · rw [if_pos h1, if_neg (by simp [goLess_asymm h1])]
    · rw [if_neg (by simp [goLess_asymm h1]), if_pos h1]
  refine ⟨hkey, ?_⟩
  unfold getConversationHistory
  rw [hkey]

/-- C8 witness: the symmetry theorem applied to "alice" and "bob" on a state
with one stored message. -/
theorem conversationKey_symm_witness :
    ("alice" : String) ≠ "bob" ∧
      (getConversationKey "alice" "bob" = getConversationKey "bob" "alice" ∧
        getConversationHistory stateC8 "alice" "bob"
          = getConversationHistory stateC8 "bob" "alice") :=
  ⟨by decide, conversationKey_symm stateC8 "alice" "bob" (by decide)⟩

/-! ## Claim C4: group message to a nonexistent group -/

/-- State with the sender "S" online (empty queue) and no groups. -/
def stateC4 : ServerState :=
  { clients := [("S", { Username := "S", send := [] })], groups := [],
    privateMessages := [], groupMessages := [], lastSeenTimestamps := [] }

/-- A stamped group message addressed to the nonexistent group "G". -/
def msgC4 : Message :=
  { type := TypeGroupMessage, From := "S", To := "G", Content := "hi",
    Timestamp := "t" }

/-- C4 counterexample: the claim states that a group message whose group is
absent triggers a system error to the sender and leaves the MessageStore
unchanged.  With sender "S" online (room in its queue) and no group "G", the
handler appends the message to the store under key "G" and enqueues nothing
for anybody — both halves of the claim fail. -/
theorem groupMessage_absent_group_behavior :
    stateC4.groups.lookup msgC4.To = none ∧
      (handleGroupMessage stateC4 msgC4 "t").groupMessages = [("G", [msgC4])] ∧
      (handleGroupMessage stateC4 msgC4 "t").clients = stateC4.clients := by
  decide

/-- C4 (amended): an inbound group message whose target group is absent from
the Group Directory is nevertheless appended to the MessageStore under the
group key, while fan-out and unread-count pushes do nothing: no frame (in
particular no system error) is enqueued for any client. -/
theorem handleGroupMessage_absent_group (s : ServerState) (msg : Message)
    (now : String) (hty : msg.type = TypeGroupMessage)
    (habs : s.groups.lookup msg.To = none) :
    handleGroupMessage s msg now
      = { s with groupMessages := appendA s.groupMessages msg.To msg } := by
  have hne : (TypeGroupMessage == TypePrivateMessage) = false := by decide
  have hyes : (TypeGroupMessage == TypeGroupMessage) = true := by decide
  simp only [handleGroupMessage, storeMessage, hty, hne, Bool.false_eq_true,
    if_false, hyes, if_true, sendToGroup, habs]

/-- C4 witness: the amended theorem at the concrete absent-group input. -/
theorem handleGroupMessage_absent_group_witness :
    (msgC4.type = TypeGroupMessage ∧ stateC4.groups.lookup msgC4.To = none) ∧
      handleGroupMessage stateC4 msgC4 "t"
        = { stateC4 with groupMessages := appendA stateC4.groupMessages msgC4.To msgC4 } :=
  ⟨⟨rfl, by decide⟩, handleGroupMessage_absent_group stateC4 msgC4 "t" rfl (by decide)⟩

/-! ## Claim C9: backpressure policy -/

theorem foldl_enqueue_preserves_none (f : Frame) :
    ∀ (l : AssocMap Client) (acc : AssocMap Client) (u : String),
      (∀ p ∈ l, p.1 ≠ u) → acc.lookup u = none →
      (l.foldl (fun acc p => enqueueOrEvict acc p.1 p.2 f) acc).lookup u = none
  | [], acc, u, _, hnone => hnone
  | p :: rest, acc, u, hne, hnone => by
    simp only [List.foldl]
    refine foldl_enqueue_preserves_none f rest _ u
      (fun q hq => hne q (List.mem_cons_of_mem _ hq)) ?_
    have hp : p.1 ≠ u := hne p (List.mem_cons_self _ _)
    unfold enqueueOrEvict
    by_cases hroom : p.2.send.length < sendQueueCapacity
    · rw [if_pos hroom, lookup_setA_ne _ _ _ _ (Ne.symm hp)]
      exact hnone
    · rw [if_neg hroom, lookup_eraseA_ne _ _ _ (Ne.symm hp)]
      exact hnone

theorem fold_evict_full (f : Frame) :
    ∀ (l acc : AssocMap Client) (u : String) (c : Client),
      (u, c) ∈ l → (l.map Prod.fst).Nodup →
      ¬ c.send.length < sendQueueCapacity →
      (l.foldl (fun acc p => enqueueOrEvict acc p.1 p.2 f) acc).lookup u = none
  | [], _, u, c, hmem, _, _ => absurd hmem (by simp)
  | (u0, c0) :: rest, acc, u, c, hmem, hnd, hfull => by
    simp only [List.map, List.nodup_cons] at hnd
    simp only [List.foldl]
    rcases List.mem_cons.mp hmem with heq | hmem2
    · have hu : u = u0 := congrArg Prod.fst heq
      have hc : c = c0 := congrArg Prod.snd heq
      subst hu
      subst hc
      refine foldl_enqueue_preserves_none f rest _ u ?_ ?_
      · intro q hq hqu
        exact hnd.1 (hqu ▸ List.mem_map_of_mem Prod.fst hq)
      · unfold enqueueOrEvict
        rw [if_neg hfull]
        exact lookup_eraseA_self _ _
    · exact fold_evict_full f rest _ u c hmem2 hnd.2 hfull

/-- C9 (amended): when a recipient's bounded queue is full, the producer
never blocks; `sendToUser` (direct sends, and the same enqueue used by every
broadcast loop) drops the frame and evicts the session from the registry,
and a broadcast leaves no registry entry for the full client — but
`sendMessageHistory` only drops the frame, leaving the client registered. -/
theorem backpressure_evicts_except_history (s : ServerState)
    (u chatType chatID now : String) (c : Client) (f : Frame)
    (hlk : s.clients.lookup u = some c)
    (hfull : ¬ c.send.length < sendQueueCapacity)
    (hnd : (s.clients.map Prod.fst).Nodup) :
    (sendToUser s.clients u f = eraseA s.clients u) ∧
      ((broadcastMessage s.clients f).lookup u = none) ∧
      (sendMessageHistory s u chatType chatID now = s.clients) := by
  refine ⟨?_, ?_, ?_⟩
  · simp only [sendToUser, hlk, enqueueOrEvict]
    rw [if_neg hfull]
  · unfold broadcastMessage
    exact fold_evict_full f s.clients s.clients u c
      (mem_of_lookup_eq_some _ _ _ hlk) hnd hfull
  · simp only [sendMessageHistory, hlk]
    rw [if_neg hfull]

/-- An arbitrary frame used to fill a queue. -/
def frameC9 : Frame :=
  Frame.message
    { type := TypeSystem, From := "", To := "", Content := "x", Timestamp := "t" }

/-- Client "B" whose outbound queue is completely full. -/
def clientC9 : Client := { Username := "B", send := List.replicate 256 frameC9 }

/-- State with the single full client "B". -/
def stateC9 : ServerState :=
  { clients := [("B", clientC9)], groups := [], privateMessages := [],
    groupMessages := [], lastSeenTimestamps := [] }

set_option maxRecDepth 8192 in
/-- C9 counterexample: the claim includes history replies among the enqueues
that evict on a full queue.  With the queue of "B" full, `sendMessageHistory`
returns the registry unchanged: the frame is dropped but the session of "B"
is still registered, contradicting the claim. -/
theorem history_reply_full_queue_no_evict :
    ¬ clientC9.send.length < sendQueueCapacity ∧
      sendMessageHistory stateC9 "B" "private" "x" "t" = stateC9.clients ∧
      (stateC9.clients.lookup "B").isSome = true := by
  refine ⟨by simp [clientC9, sendQueueCapacity], rfl, rfl⟩

/-! ## Claims C6 and C7: unread counts -/

/-- The count the spec's words ascribe to `unread_count(h, c)` with no
LastSeen entry: all messages not sent by `h` in the one private conversation
between `h` and `c`, or in the group named `c` (stated with the sum so that
it covers whichever of the two exists).  This definition follows the spec,
not the source, and is compared against the source's `getUnreadCount`. -/
def specUnreadNoSeen (s : ServerState) (h c : String) : Nat :=
  countAllFrom ((s.privateMessages.lookup (getConversationKey h c)).getD []) h
    + countAllFrom ((s.groupMessages.lookup c).getD []) h

theorem privUnreadAll_eq_zero (h c : String) :
    ∀ pm : AssocMap (List Message),
      (∀ p ∈ pm, privEntryCounted h c p.1 = false) →
      privUnreadAll pm h c = 0
  | [], _ => rfl
  | p :: rest, hall => by
    have hp := hall p (List.mem_cons_self _ _)
    simp only [privUnreadAll, hp, Bool.false_eq_true, if_false, Nat.zero_add]
    exact privUnreadAll_eq_zero h c rest
      (fun q hq => hall q (List.mem_cons_of_mem _ hq))

theorem privUnreadAll_eq_lookup (h c : String) :
    ∀ pm : AssocMap (List Message),
      (∀ p ∈ pm, privEntryCounted h c p.1 = (p.1 == getConversationKey h c)) →
      (pm.map Prod.fst).Nodup →
      privUnreadAll pm h c
        = countAllFrom ((pm.lookup (getConversationKey h c)).getD []) h
  | [], _, _ => by simp [privUnreadAll, List.lookup, countAllFrom]
  | (k, ms) :: rest, hwf, hnd => by
    simp only [List.map, List.nodup_cons] at hnd
    have hhead := hwf (k, ms) (List.mem_cons_self _ _)
    by_cases hk : k = getConversationKey h c
    · have hcnt : privEntryCounted h c k = true := by
        rw [hhead, hk]
        exact beq_self_eq_true _
      have hrest : privUnreadAll rest h c = 0 := by
        refine privUnreadAll_eq_zero h c rest (fun q hq => ?_)
        have hqk : q.1 ≠ getConversationKey h c := fun he =>
          hnd.1 ((he.trans hk.symm) ▸ List.mem_map_of_mem Prod.fst hq)
        rw [hwf q (List.mem_cons_of_mem _ hq)]
        exact beq_false_of_ne hqk
      have hlkup : (getConversationKey h c == k) = true := by
        rw [hk]
        exact beq_self_eq_true _
      simp only [privUnreadAll, hcnt, if_true, hrest, List.lookup, hlkup,
        Option.getD_some, Nat.add_zero]
    · have hcnt : privEntryCounted h c k = false := by
        rw [hhead]
        exact beq_false_of_ne hk
      have hlk : (getConversationKey h c == k) = false :=
        beq_false_of_ne (Ne.symm hk)
      simp only [privUnreadAll, hcnt, Bool.false_eq_true, if_false,
        Nat.zero_add, List.lookup, hlk]
      exact privUnreadAll_eq_lookup h c rest
        (fun q hq => hwf q (List.mem_cons_of_mem _ hq)) hnd.2

/-- C6 (amended): with no LastSeen entry for `(h, c)`, `unread_count`
coincides with the spec's count — all messages not sent by `h` in the
conversation between `h` and `c` plus the group log under `c` — exactly when
the key classification selects no other stored conversation: every stored
key is counted for `(h, c)` if and only if it is the canonical key of
`(h, c)`.  In general the scan also counts every stored conversation whose
key's first component is `c` (with first component not `h`), as the
counterexample shows. -/
theorem unreadCount_noLastSeen (s : ServerState) (h c : String)
    (hls : (s.lastSeenTimestamps.lookup h).bind (fun inner => inner.lookup c) = none)
    (hwf : ∀ p ∈ s.privateMessages,
      privEntryCounted h c p.1 = (p.1 == getConversationKey h c))
    (hnd : (s.privateMessages.map Prod.fst).Nodup) :
    getUnreadCount s h c = specUnreadNoSeen s h c := by
  unfold getUnreadCount
  rw [hls]
  unfold specUnreadNoSeen
  rw [privUnreadAll_eq_lookup h c s.privateMessages hwf hnd]

/-- Message of the foreign conversation "a:b" used against C6 and C7. -/
def msgC6 : Message :=
  { type := TypePrivateMessage, From := "a", To := "b", Content := "x",
    Timestamp := "2024-01-02T00:00:00Z" }

/-- State with one message in conversation "a:b" and nothing else. -/
def stateC6 : ServerState :=
  { clients := [], groups := [], privateMessages := [("a:b", [msgC6])],
    groupMessages := [], lastSeenTimestamps := [] }

/-- C6 counterexample: with no LastSeen entry for ("c","a"), the claim says
`unread_count("c","a")` counts only the conversation between "c" and "a"
(which is empty here, so 0).  The code scans every stored conversation and
counts the message of the unrelated conversation "a:b" because that key's
first component equals "a": it returns 1. -/
theorem unreadCount_counts_foreign_conversation :
    (stateC6.lastSeenTimestamps.lookup "c").bind (fun inner => inner.lookup "a")
        = none ∧
      specUnreadNoSeen stateC6 "c" "a" = 0 ∧
      getUnreadCount stateC6 "c" "a" = 1 := by
  decide

/-- Two messages in the conversation between "a" and "c", one sent by each. -/
def msgC6w1 : Message :=
  { type := TypePrivateMessage, From := "a", To := "c", Content := "x",
    Timestamp := "2024-01-01T00:00:00Z" }

/-- Reply by "c" in the same conversation. -/
def msgC6w2 : Message :=
  { type := TypePrivateMessage, From := "c", To := "a", Content := "y",
    Timestamp := "2024-01-01T00:00:01Z" }

/-- A message in the unrelated conversation "b:c". -/
def msgC6w3 : Message :=
  { type := TypePrivateMessage, From := "b", To := "c", Content := "z",
    Timestamp := "2024-01-01T00:00:02Z" }

/-- A group message in group "a". -/
def msgC6w4 : Message :=
  { type := TypeGroupMessage, From := "b", To := "a", Content := "w",
    Timestamp := "2024-01-01T00:00:03Z" }

/-- Witness state for C6: conversations "a:c" and "b:c" plus group "a". -/
def stateC6w : ServerState :=
  { clients := [], groups := [],
    privateMessages := [("a:c", [msgC6w1, msgC6w2]), ("b:c", [msgC6w3])],
    groupMessages := [("a", [msgC6w4])], lastSeenTimestamps := [] }

/-- C6 witness: the amended theorem at a state where the only key the scan
counts for ("c","a") is the canonical key "a:c" itself. -/
theorem unreadCount_noLastSeen_witness :
    ((stateC6w.lastSeenTimestamps.lookup "c").bind (fun inner => inner.lookup "a")
          = none ∧
        (∀ p ∈ stateC6w.privateMessages,
          privEntryCounted "c" "a" p.1 = (p.1 == getConversationKey "c" "a")) ∧
        (stateC6w.privateMessages.map Prod.fst).Nodup) ∧
      getUnreadCount stateC6w "c" "a" = specUnreadNoSeen stateC6w "c" "a" :=
  ⟨⟨by decide, by decide, by decide⟩,
    unreadCount_noLastSeen stateC6w "c" "a" (by decide) (by decide) (by decide)⟩

theorem countAfterFrom_eq_zero (msgs : List Message) (username : String)
    (tt : Int)
    (hmsgs : ∀ m ∈ msgs, ∀ x, timeParse m.Timestamp = some x → x ≤ tt) :
    countAfterFrom msgs username tt = 0 := by
  rw [countAfterFrom, List.countP_eq_zero]
  intro m hm hpred
  rcases Bool.and_eq_true_iff.mp hpred with ⟨h1, h2⟩
  cases hx : timeParse m.Timestamp with
  | none => rw [hx] at h2; exact Bool.noConfusion h2
  | some x =>
    rw [hx] at h2
    have hgt : x > tt := of_decide_eq_true h2
    exact absurd (hmsgs m hm x hx) (not_le_of_lt hgt)

theorem privUnreadAfter_eq_zero (h c : String) (tt : Int) :
    ∀ pm : AssocMap (List Message),
      (∀ p ∈ pm, privEntryCounted h c p.1 = true →
        ∀ m ∈ p.2, ∀ x, timeParse m.Timestamp = some x → x ≤ tt) →
      privUnreadAfter pm h c tt = 0
  | [], _ => rfl
  | p :: rest, hall => by
    have hrest : privUnreadAfter rest h c tt = 0 :=
      privUnreadAfter_eq_zero h c tt rest
        (fun q hq => hall q (List.mem_cons_of_mem _ hq))
    by_cases hp : privEntryCounted h c p.1 = true
    · have hz := countAfterFrom_eq_zero p.2 h tt (hall p (List.mem_cons_self _ _) hp)
      simp only [privUnreadAfter, hp, if_true, hz, hrest]
    · have hp2 : privEntryCounted h c p.1 = false := by simpa using hp
      simp only [privUnreadAfter, hp2, Bool.false_eq_true, if_false, hrest]

/-- C7 (amended): after `update_last_seen(h, c, t)` with a valid RFC 3339
timestamp `t` at least as late as every parseable message timestamp in every
store the unread scan for `(h, c)` ranges over — each private conversation
the key classification selects for `(h, c)` and the group log under `c` —
the unread count is 0.  The claim as stated constrains only the conversation
between `h` and `c`; that is not enough, because the scan also counts
foreign conversations whose key begins with `c` (see the counterexample). -/
theorem updateLastSeen_then_unread_zero (s : ServerState) (h c t now : String)
    (tt : Int) (ht : timeParse t = some tt)
    (hpm : ∀ p ∈ s.privateMessages, privEntryCounted h c p.1 = true →
      ∀ m ∈ p.2, ∀ x, timeParse m.Timestamp = some x → x ≤ tt)
    (hgm : ∀ m ∈ (s.groupMessages.lookup c).getD [], ∀ x,
      timeParse m.Timestamp = some x → x ≤ tt) :
    getUnreadCount (updateLastSeen s h c t now) h c = 0 := by
  have hne : (t != "") = true := bne_iff_ne.mpr (timeParse_ne_empty ht)
  have hsome : (timeParse t).isSome = true := by rw [ht]; rfl
  have hval : (if (t != "") && (timeParse t).isSome then t else now) = t := by
    rw [hne, hsome]
    rfl
  simp only [updateLastSeen, hval]
  unfold getUnreadCount
  simp only [lookup_setA_self, Option.some_bind, ht]
  rw [privUnreadAfter_eq_zero h c tt s.privateMessages hpm,
    countAfterFrom_eq_zero _ h tt hgm]

/-- State with one old message from "a" in conversation "a:c". -/
def stateC7w : ServerState :=
  { clients := [], groups := [],
    privateMessages := [("a:c",
      [{ type := TypePrivateMessage, From := "a", To := "c", Content := "x",
         Timestamp := "2024-01-01T00:00:00Z" }])],
    groupMessages := [], lastSeenTimestamps := [] }

/-- C7 witness: marking ("c","a") seen at a timestamp later than the one
stored message zeroes the unread count. -/
theorem updateLastSeen_then_unread_zero_witness :
    (timeParse "2024-01-02T00:00:00Z" = some 1704153600000000000 ∧
        timeParse "2024-01-01T00:00:00Z" = some 1704067200000000000) ∧
      getUnreadCount
          (updateLastSeen stateC7w "c" "a" "2024-01-02T00:00:00Z" "n") "c" "a"
        = 0 :=
  ⟨⟨by decide, by decide⟩,
    updateLastSeen_then_unread_zero stateC7w "c" "a" "2024-01-02T00:00:00Z" "n"
      1704153600000000000 (by decide)
      (by
        intro p hp hcnt m hm x hx
        simp only [stateC7w, List.mem_singleton] at hp
        subst hp
        simp only [List.mem_singleton] at hm
        subst hm
        have hp24 : timeParse "2024-01-01T00:00:00Z" = some 1704067200000000000 := by
          decide
        rw [hp24] at hx
        rw [← Option.some_inj.mp hx]
        decide)
      (by
        intro m hm x hx
        simp only [stateC7w, List.lookup] at hm
        exact absurd hm (List.not_mem_nil m))⟩

/-- State identical to `stateC6`, used for the C7 counterexample. -/
def stateC7 : ServerState :=
  { clients := [], groups := [], privateMessages := [("a:b", [msgC6])],
    groupMessages := [], lastSeenTimestamps := [] }

/-- C7 counterexample: the conversation between "c" and "a" is empty and the
group "a" does not exist, so the claim's hypothesis — `t` at least every
message timestamp in that conversation — holds vacuously for the valid
timestamp `t` = 2024-01-01; yet after `update_last_seen("c","a",t)` the
unread count is 1, not 0, because the scan counts the newer message of the
foreign conversation "a:b". -/
theorem updateLastSeen_unread_not_zero :
    (timeParse "2024-01-01T00:00:00Z").isSome = true ∧
      stateC7.privateMessages.lookup (getConversationKey "c" "a") = none ∧
      stateC7.groupMessages.lookup "a" = none ∧
      getUnreadCount
          (updateLastSeen stateC7 "c" "a" "2024-01-01T00:00:00Z" "n") "c" "a"
        = 1 := by
  decide

set_option maxRecDepth 8192 in
/-- C9 witness: the amended backpressure theorem at the full client "B". -/
theorem backpressure_evicts_except_history_witness :
    (stateC9.clients.lookup "B" = some clientC9 ∧
      ¬ clientC9.send.length < sendQueueCapacity ∧
      (stateC9.clients.map Prod.fst).Nodup) ∧
      ((sendToUser stateC9.clients "B" frameC9 = eraseA stateC9.clients "B") ∧
        ((broadcastMessage stateC9.clients frameC9).lookup "B" = none) ∧
        (sendMessageHistory stateC9 "B" "private" "x" "t" = stateC9.clients)) :=
  ⟨⟨rfl, by simp [clientC9, sendQueueCapacity], by decide⟩,
    backpressure_evicts_except_history stateC9 "B" "private" "x" "t" clientC9
      frameC9 rfl (by simp [clientC9, sendQueueCapacity]) (by decide)⟩

end Chatsync
